import Mathlib

/-!
Shallow embedding of the core of `West.py` (a four-player, partnership,
trick-taking card game).  Pure functions model the trick resolver
(`West.winner_card`), the AI selection heuristic (`Player.ai_select`),
the trump ("ato") flag propagation of round 1, and the score/announcement
logic of the match loop.  Machine state that Python mutates in place
(hand lists, card flags, score counters) is passed explicitly; fallible
operations (Python exceptions such as `list.remove(None)` or indexing an
empty list) return `Option`, with `none` marking the fault.
-/

namespace West

/-- The four suits (`PokerGame.HEARTS/DIAMONDS/SPADES/CLUBS`). -/
inductive Suit
  | hearts
  | diamonds
  | spades
  | clubs
deriving DecidableEq, Repr

/-- Card ranks.  Python stores the rank as a string from
`{2..10, J, Q, K, A}`; the synthetic placeholder card of `ai_select`
carries the integer rank `-1`, so numeric ranks are modelled as `Int`
(`Rank.num n` covers both the face values 2..10 and the placeholder). -/
inductive Rank
  | num (n : Int)
  | J
  | Q
  | K
  | A
deriving DecidableEq, Repr

/-- `Card.order` (West.py lines 31-37): J=11, Q=12, K=13, A=14, numeric
ranks map to their value (`int(self.rank)`). -/
def Rank.order : Rank → Int
  | Rank.num n => n
  | Rank.J => 11
  | Rank.Q => 12
  | Rank.K => 13
  | Rank.A => 14

/-- `Card` (West.py lines 11-20): rank/suit identity plus the mutable
trump flag `ato` and the owner.  Players are identified by their `name`
number; distinct player objects have distinct numbers, so Python's
object-identity comparisons (`is not`) become id comparisons.
`owner = none` models Python's `None`. -/
structure Card where
  rank : Rank
  suit : Suit
  ato : Bool
  owner : Option Nat
deriving DecidableEq, Repr

/-- Numeric order of a card, derived from its rank (West.py line 31). -/
def Card.order (c : Card) : Int := c.rank.order

/-- One comparison step of the winner scan (West.py lines 307-315 and the
identical lines 217-225 inside `ai_select`): the candidate `c` replaces
the current winner `w` when it is strictly higher in the winner's suit,
or else when it is a trump and `w` is not a trump of higher or equal
order. -/
def step (w c : Card) : Card :=
  if w.order < c.order ∧ c.suit = w.suit then c
  else if c.ato then
    if w.ato then (if w.order < c.order then c else w) else c
  else w

/-- `West.winner_card` (lines 304-316): start from `table[0]` and fold
the comparison step over the whole table (the Python loop also visits
`table[0]` itself, which never replaces itself).  An empty table raises
`IndexError` in Python, modelled as `none`. -/
def winner_card (table : List Card) : Option Card :=
  match table with
  | [] => none
  | c :: _ => some (table.foldl step c)

/-- `West.winner_team` (lines 318-320): the owner of the winning card. -/
def winner_team (table : List Card) : Option (Option Nat) :=
  (winner_card table).map Card.owner

/-- A player: `name` id, the teammate's id (Python holds an object
reference, `none` before the one-time setup links it), and the hand. -/
structure Player where
  id : Nat
  teammate : Option Nat
  cards : List Card
deriving DecidableEq, Repr

/-- Comparison of cards by `order`, the sort key of `Player.get_suit`. -/
def cardLE (a b : Card) : Prop := a.order ≤ b.order

instance : DecidableRel cardLE := fun a b => inferInstanceAs (Decidable (a.order ≤ b.order))

instance : IsTotal Card cardLE := ⟨fun a b => le_total a.order b.order⟩

instance : IsTrans Card cardLE := ⟨fun _ _ _ h h2 => le_trans h h2⟩

/-- `Player.get_suit` (lines 170-175): the cards of one suit in hand,
sorted ascending by order (Python's `sorted` is a stable sort, as is
`insertionSort`). -/
def Player.get_suit (p : Player) (s : Suit) : List Card :=
  List.insertionSort cardLE (p.cards.filter fun c => decide (c.suit = s))

/-- `Player.has` (lines 177-182): does the hand contain the suit? -/
def Player.has (p : Player) (s : Suit) : Bool :=
  p.cards.any fun c => decide (c.suit = s)

/-- The synthetic card built when `ai_select` is called with an empty
table (line 211): `Card(-1, PokerGame.HEARTS, self)` — rank `-1`, suit
Hearts, trump flag false, owner the selecting player itself. -/
def placeholder_card (p : Player) : Card :=
  { rank := Rank.num (-1), suit := Suit.hearts, ato := false, owner := some p.id }

/-- The provisional winner of `ai_select` (lines 204-212): the table's
first card, or the placeholder when the table is empty. -/
def lead_card (p : Player) (table : List Card) : Card :=
  match table with
  | c :: _ => c
  | [] => placeholder_card p

/-- The current winner `ai_select` computes (lines 216-225): the same
fold as `winner_card`, started from the provisional winner. -/
def cur_winner (p : Player) (table : List Card) : Card :=
  table.foldl step (lead_card p table)

/-- The minimum-tracking update of the discard loop (lines 271-278):
a card `c` replaces the tracked minimum `sm` when its order is smaller,
or on equal order when its suit counts at least as many cards in hand. -/
def min_step (p : Player) (sm c : Card) : Card :=
  if c.order ≤ sm.order then
    if c.order = sm.order then
      if (p.get_suit sm.suit).length ≤ (p.get_suit c.suit).length then c else sm
    else c
  else sm

/-- The trump break condition of the discard loop (lines 262-269): a
trump card breaks out immediately when the current winner is not owned
by the teammate and the card either differs from the winner's suit or
strictly exceeds the winner's order.  (A trump matching the winner's
suit without exceeding its order falls through to minimum tracking.) -/
def break_cond (p : Player) (w c : Card) : Bool :=
  c.ato && decide (w.owner ≠ p.teammate) &&
    (if c.suit = w.suit then decide (w.order < c.order) else true)

/-- The discard loop of `ai_select` (lines 260-278): scan the hand,
breaking on the trump condition, otherwise tracking the minimum. -/
def discard_go (p : Player) (w : Card) : List Card → Card → Card
  | [], sm => sm
  | c :: rest, sm =>
    if break_cond p w c then c else discard_go p w rest (min_step p sm c)

/-- The no-lead-suit branch of `ai_select` (lines 259-280): the tracked
minimum starts at `self.cards[0]` (IndexError — `none` — on an empty
hand) and the loop runs over the whole hand. -/
def discard_select (p : Player) (w : Card) : Option Card :=
  match p.cards with
  | [] => none
  | c0 :: _ => some (discard_go p w p.cards c0)

/-- `Player.ai_select` (lines 202-280), returning the chosen card
(`none` = the Python code raises: `self.cards.remove(gr_card)` with
`gr_card = None`, or `self.cards[0]` on an empty hand).  The hand
removal is modelled separately in `player_turn_ai`. -/
def ai_select (p : Player) (table : List Card) : Option Card :=
  let winning := cur_winner p table
  let suit := (lead_card p table).suit
  if p.has suit then
    let gr := (p.get_suit suit).find? fun c => decide (winning.order < c.order)
    let sm := (p.get_suit suit).find? fun c => decide (c.order < winning.order)
    match gr with
    | some g =>
      if winning.owner ≠ p.teammate ∧ g.suit = winning.suit then some g
      else
        match sm with
        | some s => some s
        | none => some g
    | none => sm
  else
    discard_select p winning

/-- The four suits in deck-construction order (lines 56-61). -/
def all_suits : List Suit :=
  [Suit.hearts, Suit.diamonds, Suit.spades, Suit.clubs]

/-- The thirteen ranks of one suit in deck-construction order
(lines 62-65): 2..10 then J, Q, K, A. -/
def suit_ranks : List Rank :=
  [Rank.num 2, Rank.num 3, Rank.num 4, Rank.num 5, Rank.num 6, Rank.num 7,
   Rank.num 8, Rank.num 9, Rank.num 10, Rank.J, Rank.Q, Rank.K, Rank.A]

/-- `PokerGame.get_deck` (lines 53-68): all 52 cards, trump flag false and
no owner.  The `random.shuffle` is an external collaborator (spec §1) and
is a permutation of the list, so every per-card and per-suit-count fact
proved here is shuffle-invariant; it is modelled as the identity. -/
def get_deck : List Card :=
  (all_suits.map fun s =>
    suit_ranks.map fun r => { rank := r, suit := s, ato := false, owner := none }).flatten

/-- The trump-setting loop of `West.player_turn` (lines 342-344): set
`ato` on every deck card sharing the played card's suit.  Python mutates
the shared `Card` objects, so the same update applies to every list
(deck, hands, table) holding them. -/
def set_ato (cards : List Card) (s : Suit) : List Card :=
  cards.map fun c => if c.suit = s then { c with ato := true } else c

/-- The first (human) turn of the hand (`West.player_turn`, lines
340-347, taken when the hand still holds 13 cards): the validated card
`c` is removed from the hand, every card of its suit is trump-flagged
(the deck, the remaining hands, and the played card itself all alias the
deck objects), and the flagged played card is appended to the table. -/
def first_turn (deck hand table : List Card) (c : Card) :
    List Card × List Card × List Card :=
  (set_ato deck c.suit, set_ato (hand.erase c) c.suit,
    table ++ [{ c with ato := true }])

/-- A later human turn (`West.player_turn`, lines 345-347): the validated
card is removed from the hand and appended to the table; no trump flag
is touched. -/
def later_human_turn (p : Player) (table : List Card) (c : Card) :
    Player × List Card :=
  ({ p with cards := p.cards.erase c }, table ++ [c])

/-- An AI turn (`West.player_turn`, lines 350-354): `ai_select` picks a
card, which is removed from the hand and appended to the table; no trump
flag is touched. -/
def player_turn_ai (p : Player) (table : List Card) :
    Option (Player × List Card) :=
  (ai_select p table).map fun c =>
    ({ p with cards := p.cards.erase c }, table ++ [c])

/-- One score update of the match loop (`West.start`, lines 386-389):
the flag says whether the round winner is in the first partnership. -/
def score_update (winnerInTeam1 : Bool) (s : Nat × Nat) : Nat × Nat :=
  if winnerInTeam1 then (s.1 + 1, s.2) else (s.1, s.2 + 1)

/-- The cumulative scores after a sequence of rounds, starting from the
initial `(0, 0)` of `West.__init__` (lines 301-302). -/
def run_match (winners : List Bool) : Nat × Nat :=
  winners.foldl (fun s b => score_update b s) (0, 0)

/-- The possible final announcements of `West.start` (lines 367-373). -/
inductive MatchResult
  | firstTeamWon
  | secondTeamWon
  | tie
deriving DecidableEq, Repr

/-- The final announcement of `West.start` (lines 367-373), transcribed
verbatim: the second branch of the source compares `self.t2_points` with
itself (`elif self.t2_points > self.t2_points`). -/
def announce_result (t1 t2 : Nat) : MatchResult :=
  if t2 < t1 then MatchResult.firstTeamWon
  else if t2 < t2 then MatchResult.secondTeamWon
  else MatchResult.tie

/-! ### Concrete fixtures for counterexamples and witnesses -/

/-- AI player of the spec §8 scenario: hand {3♠, 9♠, J♣}, teammate 4. -/
def exC2player : Player :=
  ⟨2, some 4, [⟨Rank.num 3, Suit.spades, false, some 2⟩,
    ⟨Rank.num 9, Suit.spades, false, some 2⟩, ⟨Rank.J, Suit.clubs, false, some 2⟩]⟩

/-- Table for the spec §8 scenario: a single 6♠ played by player 1. -/
def exC2table : List Card := [⟨Rank.num 6, Suit.spades, false, some 1⟩]

/-- AI player holding only 9♠ (teammate 1). -/
def exC3player : Player := ⟨3, some 1, [⟨Rank.num 9, Suit.spades, false, some 3⟩]⟩

/-- Table: 6♠ led by player 2, trumped by 9♥ of player 4. -/
def exC3table : List Card :=
  [⟨Rank.num 6, Suit.spades, false, some 2⟩, ⟨Rank.num 9, Suit.hearts, true, some 4⟩]

/-- Table: 2♥ led, 5♠ flagged trump, 9♠ not flagged. -/
def exC6table : List Card :=
  [⟨Rank.num 2, Suit.hearts, false, some 1⟩, ⟨Rank.num 5, Suit.spades, true, some 2⟩,
    ⟨Rank.num 9, Suit.spades, false, some 3⟩]

/-- AI player (teammate 7) holding trump 3♥ and 2♠. -/
def exC7player : Player :=
  ⟨5, some 7, [⟨Rank.num 3, Suit.hearts, true, some 5⟩,
    ⟨Rank.num 2, Suit.spades, false, some 5⟩]⟩

/-- Table: 4♦ led by player 6, trumped by Q♥ of player 8. -/
def exC7table : List Card :=
  [⟨Rank.num 4, Suit.diamonds, false, some 6⟩, ⟨Rank.Q, Suit.hearts, true, some 8⟩]

/-- AI player (teammate 3) leading with hand {A♥, 2♠}. -/
def exC8player : Player :=
  ⟨1, some 3, [⟨Rank.A, Suit.hearts, false, some 1⟩,
    ⟨Rank.num 2, Suit.spades, false, some 1⟩]⟩

/-- Spec §8 end-to-end table: [2♥(lead), K♥, A♦(trump), 5♥]. -/
def exSpecTableA : List Card :=
  [⟨Rank.num 2, Suit.hearts, false, some 1⟩, ⟨Rank.K, Suit.hearts, false, some 2⟩,
    ⟨Rank.A, Suit.diamonds, true, some 3⟩, ⟨Rank.num 5, Suit.hearts, false, some 4⟩]

/-- Spec §8 end-to-end table: [2♥, 7♥, K♥, 9♥], no trumps. -/
def exSpecTableB : List Card :=
  [⟨Rank.num 2, Suit.hearts, false, some 1⟩, ⟨Rank.num 7, Suit.hearts, false, some 2⟩,
    ⟨Rank.K, Suit.hearts, false, some 3⟩, ⟨Rank.num 9, Suit.hearts, false, some 4⟩]

/-! ### Auxiliary lemmas -/

theorem step_cases (w c : Card) : step w c = w ∨ step w c = c := by
  unfold step
  split_ifs <;> first | exact Or.inl rfl | exact Or.inr rfl

theorem step_self (c : Card) : step c c = c := by
  rcases step_cases c c with h | h <;> exact h

theorem min_step_cases (p : Player) (sm c : Card) :
    min_step p sm c = sm ∨ min_step p sm c = c := by
  unfold min_step
  split_ifs <;> first | exact Or.inl rfl | exact Or.inr rfl

theorem foldl_mem_of_cases (f : Card → Card → Card)
    (hf : ∀ a b, f a b = a ∨ f a b = b) (l : List Card) (w : Card) :
    l.foldl f w ∈ w :: l := by
  induction l generalizing w with
  | nil => simp
  | cons c rest ih =>
    rw [List.foldl_cons]
    have h := ih (f w c)
    rcases List.mem_cons.mp h with h1 | h1
    · rcases hf w c with hs | hs
      · rw [h1, hs]; exact List.mem_cons_self _ _
      · rw [h1, hs]; exact List.mem_cons.mpr (Or.inr (List.mem_cons_self _ _))
    · exact List.mem_cons.mpr (Or.inr (List.mem_cons.mpr (Or.inr h1)))

theorem foldl_step_mem (l : List Card) (w : Card) : l.foldl step w ∈ w :: l :=
  foldl_mem_of_cases step step_cases l w

theorem get_suit_sorted (p : Player) (s : Suit) :
    List.Sorted cardLE (p.get_suit s) :=
  List.sorted_insertionSort cardLE _

theorem mem_get_suit {p : Player} {s : Suit} {c : Card} (h : c ∈ p.get_suit s) :
    c ∈ p.cards ∧ c.suit = s := by
  unfold Player.get_suit at h
  have h2 := (List.perm_insertionSort cardLE _).mem_iff.mp h
  rcases List.mem_filter.mp h2 with ⟨h3, h4⟩
  exact ⟨h3, by simpa using h4⟩

theorem get_suit_mem {p : Player} {s : Suit} {c : Card} (hc : c ∈ p.cards)
    (hs : c.suit = s) : c ∈ p.get_suit s := by
  unfold Player.get_suit
  exact (List.perm_insertionSort cardLE _).mem_iff.mpr
    (List.mem_filter.mpr ⟨hc, by simpa using hs⟩)

theorem find?_gt_min {l : List Card} (hs : List.Sorted cardLE l) {w : Int}
    {g : Card} (h : l.find? (fun c => decide (w < c.order)) = some g) :
    w < g.order ∧ ∀ c ∈ l, w < c.order → g.order ≤ c.order := by
  induction l with
  | nil => simp at h
  | cons a rest ih =>
    rw [List.find?_cons] at h
    rcases List.sorted_cons.mp hs with ⟨ha, hrest⟩
    by_cases hpa : w < a.order
    · simp [hpa] at h
      subst h
      refine ⟨hpa, ?_⟩
      intro c hc _
      rcases List.mem_cons.mp hc with h1 | h1
      · rw [h1]
      · exact ha c h1
    · simp [hpa] at h
      obtain ⟨h1, h2⟩ := ih hrest h
      refine ⟨h1, ?_⟩
      intro c hc hcw
      rcases List.mem_cons.mp hc with h3 | h3
      · exact absurd (h3 ▸ hcw) hpa
      · exact h2 c h3 hcw

theorem find?_lt_min {l : List Card} (hs : List.Sorted cardLE l) {w : Int}
    {m : Card} (h : l.find? (fun c => decide (c.order < w)) = some m) :
    m.order < w ∧ ∀ c ∈ l, m.order ≤ c.order := by
  induction l with
  | nil => simp at h
  | cons a rest ih =>
    rw [List.find?_cons] at h
    rcases List.sorted_cons.mp hs with ⟨ha, hrest⟩
    by_cases hpa : a.order < w
    · simp [hpa] at h
      subst h
      refine ⟨hpa, ?_⟩
      intro c hc
      rcases List.mem_cons.mp hc with h1 | h1
      · rw [h1]
      · exact ha c h1
    · simp [hpa] at h
      obtain ⟨h1, h2⟩ := ih hrest h
      refine ⟨h1, ?_⟩
      intro c hc
      rcases List.mem_cons.mp hc with h3 | h3
      · rw [h3]; exact le_of_lt (lt_of_lt_of_le h1 (not_lt.mp hpa))
      · exact h2 c h3

theorem discard_go_mem (p : Player) (w : Card) (l : List Card) (sm : Card) :
    discard_go p w l sm ∈ sm :: l := by
  induction l generalizing sm with
  | nil => simp [discard_go]
  | cons c rest ih =>
    unfold discard_go
    split
    · exact List.mem_cons.mpr (Or.inr (List.mem_cons_self _ _))
    · have h := ih (min_step p sm c)
      rcases List.mem_cons.mp h with h1 | h1
      · rcases min_step_cases p sm c with h2 | h2
        · rw [h1, h2]; exact List.mem_cons_self _ _
        · rw [h1, h2]
          exact List.mem_cons.mpr (Or.inr (List.mem_cons_self _ _))
      · exact List.mem_cons.mpr (Or.inr (List.mem_cons.mpr (Or.inr h1)))

theorem ai_select_total_aux (p : Player) (t : List Card)
    (hne : p.cards ≠ [])
    (hdeg : p.has (lead_card p t).suit = true →
      ∃ c ∈ p.get_suit (lead_card p t).suit,
        c.order ≠ (cur_winner p t).order) :
    ∃ c, ai_select p t = some c ∧ c ∈ p.cards := by
  by_cases hhas : p.has (lead_card p t).suit = true
  · obtain ⟨c, hc, hcw⟩ := hdeg hhas
    rcases lt_or_gt_of_ne hcw with hlt | hgt
    · have hsome : (((p.get_suit (lead_card p t).suit).find?
          (fun c => decide (c.order < (cur_winner p t).order))).isSome = true) :=
        List.find?_isSome.mpr ⟨c, hc, by simpa using hlt⟩
      obtain ⟨s, hsm⟩ := Option.isSome_iff_exists.mp hsome
      have hsmem : s ∈ p.cards := (mem_get_suit (List.mem_of_find?_eq_some hsm)).1
      rcases hgr : (p.get_suit (lead_card p t).suit).find?
          (fun c => decide ((cur_winner p t).order < c.order)) with _ | g
      · exact ⟨s, by simp [ai_select, hhas, hgr, hsm], hsmem⟩
      · have hgmem : g ∈ p.cards := (mem_get_suit (List.mem_of_find?_eq_some hgr)).1
        by_cases hcond : (cur_winner p t).owner ≠ p.teammate ∧
            g.suit = (cur_winner p t).suit
        · exact ⟨g, by simp [ai_select, hhas, hgr, hcond], hgmem⟩
        · exact ⟨s, by simp [ai_select, hhas, hgr, hsm, hcond], hsmem⟩
    · have hsome : (((p.get_suit (lead_card p t).suit).find?
          (fun c => decide ((cur_winner p t).order < c.order))).isSome = true) :=
        List.find?_isSome.mpr ⟨c, hc, by simpa using hgt⟩
      obtain ⟨g, hgr⟩ := Option.isSome_iff_exists.mp hsome
      have hgmem : g ∈ p.cards := (mem_get_suit (List.mem_of_find?_eq_some hgr)).1
      by_cases hcond : (cur_winner p t).owner ≠ p.teammate ∧
          g.suit = (cur_winner p t).suit
      · exact ⟨g, by simp [ai_select, hhas, hgr, hcond], hgmem⟩
      · rcases hsm : (p.get_suit (lead_card p t).suit).find?
            (fun c => decide (c.order < (cur_winner p t).order)) with _ | s
        · exact ⟨g, by simp [ai_select, hhas, hgr, hcond, hsm], hgmem⟩
        · exact ⟨s, by simp [ai_select, hhas, hgr, hcond, hsm],
            (mem_get_suit (List.mem_of_find?_eq_some hsm)).1⟩
  · obtain ⟨c0, rest, hcards⟩ := List.exists_cons_of_ne_nil hne
    refine ⟨discard_go p (cur_winner p t) (c0 :: rest) c0, ?_, ?_⟩
    · simp [ai_select, hhas, discard_select, hcards]
    · have h := discard_go_mem p (cur_winner p t) (c0 :: rest) c0
      rcases List.mem_cons.mp h with h1 | h1
      · rw [hcards, h1]; exact List.mem_cons_self _ _
      · rw [hcards]; exact h1

theorem min_step_le (p : Player) (sm c : Card) :
    (min_step p sm c).order ≤ sm.order ∧ (min_step p sm c).order ≤ c.order := by
  unfold min_step
  split_ifs <;> constructor <;> omega

theorem foldl_min_le (p : Player) (l : List Card) (sm : Card) :
    (l.foldl (min_step p) sm).order ≤ sm.order ∧
      ∀ c ∈ l, (l.foldl (min_step p) sm).order ≤ c.order := by
  induction l generalizing sm with
  | nil => exact ⟨le_refl _, by simp⟩
  | cons c rest ih =>
    rw [List.foldl_cons]
    obtain ⟨h1, h2⟩ := ih (min_step p sm c)
    obtain ⟨ha, hb⟩ := min_step_le p sm c
    refine ⟨le_trans h1 ha, ?_⟩
    intro x hx
    rcases List.mem_cons.mp hx with h | h
    · rw [h]; exact le_trans h1 hb
    · exact h2 x h

theorem foldl_min_mem (p : Player) (l : List Card) (sm : Card) :
    l.foldl (min_step p) sm ∈ sm :: l :=
  foldl_mem_of_cases (min_step p) (min_step_cases p) l sm

theorem discard_go_eq (p : Player) (w : Card) (l : List Card) (sm : Card) :
    discard_go p w l sm =
      match l.find? (break_cond p w) with
      | some c => c
      | none => l.foldl (min_step p) sm := by
  induction l generalizing sm with
  | nil => rfl
  | cons c rest ih =>
    rw [List.find?_cons]
    by_cases h : break_cond p w c = true
    · simp [discard_go, h]
    · simp only [discard_go, Bool.not_eq_true] at h ⊢
      rw [h, ih]
      simp

theorem foldl_step_lead_or_trump (lead : Suit) (l : List Card) (w : Card)
    (hcoh : (∀ x ∈ w :: l, x.ato = false) ∨
      ∃ s, ∀ x ∈ w :: l, (x.ato = true ↔ x.suit = s))
    (hw : w.suit = lead ∨ w.ato = true) :
    (l.foldl step w).suit = lead ∨ (l.foldl step w).ato = true := by
  induction l generalizing w with
  | nil => exact hw
  | cons c rest ih =>
    rw [List.foldl_cons]
    have hmem : step w c ∈ w :: c :: rest := by
      rcases step_cases w c with h | h <;> rw [h]
      · exact List.mem_cons_self _ _
      · exact List.mem_cons.mpr (Or.inr (List.mem_cons_self _ _))
    refine ih (step w c) ?_ ?_
    · rcases hcoh with h | ⟨s, h⟩
      · left
        intro x hx
        rcases List.mem_cons.mp hx with h1 | h1
        · exact h x (h1 ▸ hmem)
        · exact h x (List.mem_cons.mpr (Or.inr (List.mem_cons.mpr (Or.inr h1))))
      · refine Or.inr ⟨s, ?_⟩
        intro x hx
        rcases List.mem_cons.mp hx with h1 | h1
        · exact h x (h1 ▸ hmem)
        · exact h x (List.mem_cons.mpr (Or.inr (List.mem_cons.mpr (Or.inr h1))))
    · have hwm : w ∈ w :: c :: rest := List.mem_cons_self _ _
      have hcm : c ∈ w :: c :: rest :=
        List.mem_cons.mpr (Or.inr (List.mem_cons_self _ _))
      unfold step
      split_ifs with h1 h2 h3 h4
      · -- same-suit overtake: the suit is preserved
        rcases hw with hl | ht
        · exact Or.inl (h1.2.trans hl)
        · rcases hcoh with h | ⟨s, h⟩
          · rw [h w hwm] at ht; exact absurd ht (by simp)
          · refine Or.inr ((h c hcm).mpr ?_)
            rw [h1.2]
            exact (h w hwm).mp ht
      · exact Or.inr h2
      · exact hw
      · exact Or.inr h2
      · exact hw

theorem ai_select_mem {p : Player} {t : List Card} {c : Card}
    (h : ai_select p t = some c) : c ∈ p.cards := by
  simp only [ai_select] at h
  by_cases hhas : p.has (lead_card p t).suit = true
  · simp only [hhas, if_true] at h
    rcases hgr : (p.get_suit (lead_card p t).suit).find?
        (fun c => decide ((cur_winner p t).order < c.order)) with _ | g
    · rw [hgr] at h
      simp only [] at h
      exact (mem_get_suit (List.mem_of_find?_eq_some h)).1
    · rw [hgr] at h
      simp only [] at h
      split_ifs at h
      · injection h with h
        exact h ▸ (mem_get_suit (List.mem_of_find?_eq_some hgr)).1
      · rcases hsm : (p.get_suit (lead_card p t).suit).find?
            (fun c => decide (c.order < (cur_winner p t).order)) with _ | s
        · rw [hsm] at h
          injection h with h
          exact h ▸ (mem_get_suit (List.mem_of_find?_eq_some hgr)).1
        · rw [hsm] at h
          injection h with h
          exact h ▸ (mem_get_suit (List.mem_of_find?_eq_some hsm)).1
  · simp only [hhas, if_false, Bool.false_eq_true] at h
    unfold discard_select at h
    rcases hcards : p.cards with _ | ⟨c0, rest⟩
    · rw [hcards] at h
      simp at h
    · rw [hcards] at h
      simp only [] at h
      injection h with h
      subst h
      have hm := discard_go_mem p (cur_winner p t) (c0 :: rest) c0
      rcases List.mem_cons.mp hm with h1 | h1
      · rw [h1]; exact List.mem_cons_self _ _
      · exact h1

theorem erase_play_perm {cards t : List Card} {c : Card} (hmem : c ∈ cards) :
    (cards.erase c ++ (t ++ [c])).Perm (cards ++ t) := by
  have e1 : cards.erase c ++ (t ++ [c]) = (cards.erase c ++ t) ++ [c] :=
    (List.append_assoc _ _ _).symm
  rw [e1]
  refine List.Perm.trans List.perm_append_comm ?_
  have e2 : [c] ++ (cards.erase c ++ t) = (c :: cards.erase c) ++ t := by simp
  rw [e2]
  exact List.Perm.append_right t (List.perm_cons_erase hmem).symm

theorem run_match_sum_aux (ws : List Bool) (s : Nat × Nat) :
    (ws.foldl (fun s b => score_update b s) s).1 +
        (ws.foldl (fun s b => score_update b s) s).2 =
      s.1 + s.2 + ws.length := by
  induction ws generalizing s with
  | nil => simp
  | cons b rest ih =>
    rw [List.foldl_cons, ih]
    unfold score_update
    split_ifs <;> simp <;> omega

/-! ### Claim theorems -/

/-- Claim C1: for every 4-card table, `winner_card` is the fold of the
comparison step over the subsequent cards starting from the first card, and
the step replaces the winner exactly when (a) the card is strictly higher in
the winner's suit, or (b) it is a trump and the winner is not a trump of
higher or equal order; consequently any trump beats any non-trump (the
trump-survives direction holding under game-coherent flags, where `ato`
marks exactly the cards of one suit), between two trumps the strictly
higher order wins, and between two lead-suit non-trump cards the strictly
higher order wins. -/
theorem winner_card_replacement_rule (a b c d w x : Card) (s : Suit) :
    winner_card [a, b, c, d] = some (step (step (step a b) c) d)
    ∧ (step w x =
        if (w.order < x.order ∧ x.suit = w.suit)
            ∨ (x.ato = true ∧ ¬(w.ato = true ∧ x.order ≤ w.order)) then x else w)
    ∧ (x.ato = true → w.ato = false → step w x = x)
    ∧ ((w.ato = true ↔ w.suit = s) → (x.ato = true ↔ x.suit = s) →
        w.ato = true → x.ato = false → step w x = w)
    ∧ (w.ato = true → x.ato = true →
        step w x = if w.order < x.order then x else w)
    ∧ (w.ato = false → x.ato = false → x.suit = w.suit →
        step w x = if w.order < x.order then x else w) := by
  refine ⟨?_, ?_, ?_, ?_, ?_, ?_⟩
  · simp [winner_card, step_self]
  · by_cases h : (w.order < x.order ∧ x.suit = w.suit)
        ∨ (x.ato = true ∧ ¬(w.ato = true ∧ x.order ≤ w.order))
    · rw [if_pos h]
      unfold step
      rcases h with h1 | ⟨h1, h2⟩
      · rw [if_pos h1]
      · by_cases ha : w.order < x.order ∧ x.suit = w.suit
        · rw [if_pos ha]
        · rw [if_neg ha, if_pos h1]
          by_cases haw : w.ato = true
          · have hlt : w.order < x.order :=
              not_le.mp fun hle => h2 ⟨haw, hle⟩
            rw [if_pos haw, if_pos hlt]
          · rw [if_neg haw]
    · rw [if_neg h]
      rw [not_or] at h
      obtain ⟨h1, h2⟩ := h
      unfold step
      rw [if_neg h1]
      by_cases hax : x.ato = true
      · have h3 : w.ato = true ∧ x.order ≤ w.order := by
          by_contra hn
          exact h2 ⟨hax, hn⟩
        rw [if_pos hax, if_pos h3.1, if_neg (not_lt.mpr h3.2)]
      · rw [if_neg hax]
  · intro hax haw
    unfold step
    by_cases h1 : w.order < x.order ∧ x.suit = w.suit
    · rw [if_pos h1]
    · rw [if_neg h1, if_pos hax, if_neg (by rw [haw]; simp)]
  · intro hw hx haw hax
    have hws : w.suit = s := hw.mp haw
    have hxs : x.suit ≠ s := fun h => by rw [hx.mpr h] at hax; exact absurd hax (by simp)
    unfold step
    rw [if_neg (fun h => hxs (h.2.trans hws)), if_neg (by rw [hax]; simp)]
  · intro haw hax
    unfold step
    by_cases hox : w.order < x.order
    · by_cases hsx : x.suit = w.suit
      · rw [if_pos ⟨hox, hsx⟩, if_pos hox]
      · rw [if_neg (fun h => hsx h.2), if_pos hax, if_pos haw]
    · rw [if_neg (fun h => hox h.1), if_pos hax, if_pos haw]
  · intro haw hax hsx
    unfold step
    by_cases hox : w.order < x.order
    · rw [if_pos hox, if_pos ⟨hox, hsx⟩]
    · rw [if_neg hox, if_neg (fun h => hox h.1), if_neg (by rw [hax]; simp)]

/-- Concrete instance of the C1 consequences: the trump A♦ overtakes the
non-trump K♥, and then survives the non-trump 5♥ under coherent flags. -/
theorem winner_card_replacement_rule_witness :
    step ⟨Rank.K, Suit.hearts, false, some 2⟩ ⟨Rank.A, Suit.diamonds, true, some 3⟩
        = ⟨Rank.A, Suit.diamonds, true, some 3⟩
    ∧ step ⟨Rank.A, Suit.diamonds, true, some 3⟩ ⟨Rank.num 5, Suit.hearts, false, some 4⟩
        = ⟨Rank.A, Suit.diamonds, true, some 3⟩ := by
  constructor
  · exact (winner_card_replacement_rule ⟨Rank.K, Suit.hearts, false, some 2⟩
      ⟨Rank.K, Suit.hearts, false, some 2⟩ ⟨Rank.K, Suit.hearts, false, some 2⟩
      ⟨Rank.K, Suit.hearts, false, some 2⟩ ⟨Rank.K, Suit.hearts, false, some 2⟩
      ⟨Rank.A, Suit.diamonds, true, some 3⟩ Suit.diamonds).2.2.1 rfl rfl
  · exact (winner_card_replacement_rule ⟨Rank.K, Suit.hearts, false, some 2⟩
      ⟨Rank.K, Suit.hearts, false, some 2⟩ ⟨Rank.K, Suit.hearts, false, some 2⟩
      ⟨Rank.K, Suit.hearts, false, some 2⟩ ⟨Rank.A, Suit.diamonds, true, some 3⟩
      ⟨Rank.num 5, Suit.hearts, false, some 4⟩ Suit.diamonds).2.2.2.1
      (by decide) (by decide) rfl rfl

/-- Claim C10: for every non-empty table the winning card is an element of
the table, and `winner_team` returns the owner recorded on one of the cards
actually played. -/
theorem winner_card_mem_table (t : List Card) (h : t ≠ []) :
    ∃ c ∈ t, winner_card t = some c ∧ winner_team t = some c.owner := by
  obtain ⟨a, rest, rfl⟩ := List.exists_cons_of_ne_nil h
  refine ⟨(a :: rest).foldl step a, ?_, rfl, rfl⟩
  have hm := foldl_step_mem (a :: rest) a
  rcases List.mem_cons.mp hm with h1 | h1
  · rw [h1]; exact List.mem_cons_self _ _
  · exact h1

/-- Concrete instance of C10 on the no-trump table [2♥, 7♥, K♥, 9♥]. -/
theorem winner_card_mem_table_witness :
    ∃ c ∈ exSpecTableB, winner_card exSpecTableB = some c
      ∧ winner_team exSpecTableB = some c.owner :=
  winner_card_mem_table exSpecTableB (by decide)

/-- Counterexample to claim C6 as stated: in the table [2♥, 5♠(trump), 9♠]
every pair of trump-flagged cards shares one suit (only 5♠ is flagged), yet
the winner is 9♠ — a card of a third suit that neither shares the lead suit
♥ of the first card nor is a trump. -/
theorem third_suit_winner_counterexample :
    (∀ x ∈ exC6table, ∀ y ∈ exC6table,
      x.ato = true → y.ato = true → x.suit = y.suit)
    ∧ exC6table.head? = some ⟨Rank.num 2, Suit.hearts, false, some 1⟩
    ∧ winner_card exC6table = some ⟨Rank.num 9, Suit.spades, false, some 3⟩
    ∧ (⟨Rank.num 9, Suit.spades, false, some 3⟩ : Card).suit ≠ Suit.hearts
    ∧ (⟨Rank.num 9, Suit.spades, false, some 3⟩ : Card).ato = false := by
  decide

/-- Claim C6 amended: for a non-empty table whose trump flags are
game-coherent — either no card is flagged, or some suit flags exactly the
cards of that suit — the winning card shares the suit of the table's first
card or is a trump; a card of a third, unrelated non-trump suit never wins. -/
theorem winner_lead_or_trump (t : List Card) (a : Card) (rest : List Card)
    (ht : t = a :: rest)
    (hcoh : (∀ x ∈ t, x.ato = false) ∨
      ∃ s, ∀ x ∈ t, (x.ato = true ↔ x.suit = s))
    {w : Card} (hw : winner_card t = some w) :
    w.suit = a.suit ∨ w.ato = true := by
  subst ht
  have hfold : w = (a :: rest).foldl step a := by
    have : some ((a :: rest).foldl step a) = some w := hw
    exact (Option.some.injEq _ _ ▸ this).symm
  subst hfold
  refine foldl_step_lead_or_trump a.suit (a :: rest) a ?_ (Or.inl rfl)
  rcases hcoh with h | ⟨s, h⟩
  · left
    intro x hx
    rcases List.mem_cons.mp hx with h1 | h1
    · exact h x (h1 ▸ List.mem_cons_self _ _)
    · exact h x h1
  · refine Or.inr ⟨s, ?_⟩
    intro x hx
    rcases List.mem_cons.mp hx with h1 | h1
    · exact h x (h1 ▸ List.mem_cons_self _ _)
    · exact h x h1

/-- Concrete instance of amended C6 on the table [2♥, K♥, A♦(trump), 5♥]
with coherent flags (trump suit ♦): the winner A♦ is lead-suited or trump. -/
theorem winner_lead_or_trump_witness :
    (⟨Rank.A, Suit.diamonds, true, some 3⟩ : Card).suit
        = (⟨Rank.num 2, Suit.hearts, false, some 1⟩ : Card).suit
    ∨ (⟨Rank.A, Suit.diamonds, true, some 3⟩ : Card).ato = true :=
  winner_lead_or_trump exSpecTableA ⟨Rank.num 2, Suit.hearts, false, some 1⟩
    (exSpecTableA.tail) (by decide) (Or.inr ⟨Suit.diamonds, by decide⟩)
    (by decide)

/-- Claim C4 (code bug): at final scores t1 = 5, t2 = 13 - 5 = 8 the source
announces a tie; the second-team branch of `West.start` compares
`self.t2_points` with itself (`elif self.t2_points > self.t2_points`, line
370) and can never fire, so the second team is never declared winner,
contradicting the rule that the second team wins exactly when t2 > t1. -/
theorem announce_result_tie_bug :
    announce_result 5 8 = MatchResult.tie
    ∧ announce_result 5 8 ≠ MatchResult.secondTeamWon
    ∧ ∀ t1 t2 : Nat, announce_result t1 t2 ≠ MatchResult.secondTeamWon := by
  refine ⟨rfl, by decide, ?_⟩
  intro t1 t2
  unfold announce_result
  split_ifs with h1 h2
  · decide
  · omega
  · decide

/-- Claim C9: each completed round increments exactly one of the two
partnership counters by exactly 1, both counters are non-decreasing, and
after any 13 rounds the two scores sum to exactly 13. -/
theorem score_counters_spec :
    (∀ (b : Bool) (s : Nat × Nat),
      (score_update b s = (s.1 + 1, s.2) ∨ score_update b s = (s.1, s.2 + 1))
      ∧ s.1 ≤ (score_update b s).1 ∧ s.2 ≤ (score_update b s).2
      ∧ (score_update b s).1 + (score_update b s).2 = s.1 + s.2 + 1)
    ∧ ∀ ws : List Bool, ws.length = 13 →
        (run_match ws).1 + (run_match ws).2 = 13 := by
  constructor
  · intro b s
    unfold score_update
    cases b <;> simp <;> omega
  · intro ws hlen
    unfold run_match
    rw [run_match_sum_aux]
    simp [hlen]

/-- Concrete instance of C9: a 13-round match where the first team wins
every round ends with scores summing to 13. -/
theorem score_counters_spec_witness :
    (run_match (List.replicate 13 true)).1
      + (run_match (List.replicate 13 true)).2 = 13 :=
  score_counters_spec.2 (List.replicate 13 true) (by decide)

/-- Counterexample to claim C2: at the claim's own example — hand
{3♠, 9♠, J♣}, lead suit ♠, current winner of order 6 — the smCard scan
(first ascending lead-suit card of order strictly below the winner, lines
233-236) returns 3♠, not "no card" as the claim states; it is also not the
largest card of order ≤ 6. -/
theorem sm_card_scan_counterexample :
    (cur_winner exC2player exC2table).order = 6
    ∧ (exC2player.get_suit Suit.spades).find?
        (fun c => decide (c.order < (cur_winner exC2player exC2table).order))
      = some ⟨Rank.num 3, Suit.spades, false, some 2⟩ := by
  decide

/-- Claim C2 amended: in the lead-suit branch, grCard is the smallest
lead-suit card strictly greater in order than the current winner, and
smCard is the smallest (first in the ascending scan) lead-suit card of
order strictly below the winner — hence a minimum of the whole lead-suit
subset; at the example hand {3♠, 9♠, J♣} with winner 6♠ the scans give
grCard = 9♠ and smCard = 3♠, and the selection plays grCard = 9♠ since the
winner's owner is not the teammate. -/
theorem ai_lead_suit_scan_spec (p : Player) (t : List Card) (g m : Card)
    (hg : (p.get_suit (lead_card p t).suit).find?
        (fun c => decide ((cur_winner p t).order < c.order)) = some g)
    (hm : (p.get_suit (lead_card p t).suit).find?
        (fun c => decide (c.order < (cur_winner p t).order)) = some m) :
    ((cur_winner p t).order < g.order
      ∧ ∀ c ∈ p.get_suit (lead_card p t).suit,
          (cur_winner p t).order < c.order → g.order ≤ c.order)
    ∧ (m.order < (cur_winner p t).order
      ∧ ∀ c ∈ p.get_suit (lead_card p t).suit, m.order ≤ c.order)
    ∧ ai_select exC2player exC2table
        = some ⟨Rank.num 9, Suit.spades, false, some 2⟩ :=
  ⟨find?_gt_min (get_suit_sorted p _) hg,
    find?_lt_min (get_suit_sorted p _) hm, by decide⟩

/-- Concrete instance of amended C2 at the example hand: grCard = 9♠ is the
smallest spade above the winner 6♠, smCard = 3♠ is below the winner and
minimal, and 9♠ is played. -/
theorem ai_lead_suit_scan_spec_witness :
    ((cur_winner exC2player exC2table).order
        < (⟨Rank.num 9, Suit.spades, false, some 2⟩ : Card).order
      ∧ ∀ c ∈ exC2player.get_suit (lead_card exC2player exC2table).suit,
          (cur_winner exC2player exC2table).order < c.order →
            (⟨Rank.num 9, Suit.spades, false, some 2⟩ : Card).order ≤ c.order)
    ∧ ((⟨Rank.num 3, Suit.spades, false, some 2⟩ : Card).order
        < (cur_winner exC2player exC2table).order
      ∧ ∀ c ∈ exC2player.get_suit (lead_card exC2player exC2table).suit,
          (⟨Rank.num 3, Suit.spades, false, some 2⟩ : Card).order ≤ c.order)
    ∧ ai_select exC2player exC2table
        = some ⟨Rank.num 9, Suit.spades, false, some 2⟩ :=
  ai_lead_suit_scan_spec exC2player exC2table
    ⟨Rank.num 9, Suit.spades, false, some 2⟩
    ⟨Rank.num 3, Suit.spades, false, some 2⟩ (by decide) (by decide)

/-- Counterexample to claim C3: the hand {9♠} is non-empty, the table holds
two owned cards (6♠ led, then the trump 9♥), the AI holds the lead suit ♠,
yet `ai_select` faults — both scans fail because the only spade in hand has
exactly the winner's order 9, and the final fallback removes a nonexistent
card (`self.cards.remove(None)` raises in Python, `none` here). -/
theorem ai_select_fault_counterexample :
    exC3player.cards ≠ []
    ∧ exC3table.length ≤ 3
    ∧ (∀ c ∈ exC3table, c.owner ≠ none)
    ∧ ai_select exC3player exC3table = none := by
  decide

/-- Claim C3 amended: `ai_select` returns a card drawn from the hand for
every non-empty hand and every table, except in the degenerate case where
the player holds the lead suit and every lead-suit card in hand has exactly
the current winner's order (then both scans fail and the final fallback
dereferences a missing card). -/
theorem ai_select_total (p : Player) (t : List Card) (hne : p.cards ≠ [])
    (hdeg : p.has (lead_card p t).suit = true →
      ∃ c ∈ p.get_suit (lead_card p t).suit,
        c.order ≠ (cur_winner p t).order) :
    ∃ c, ai_select p t = some c ∧ c ∈ p.cards :=
  ai_select_total_aux p t hne hdeg

/-- Concrete instance of amended C3 at the spec §8 example. -/
theorem ai_select_total_witness :
    ∃ c, ai_select exC2player exC2table = some c ∧ c ∈ exC2player.cards :=
  ai_select_total exC2player exC2table (by decide)
    (fun _ => ⟨⟨Rank.num 3, Suit.spades, false, some 2⟩, by decide, by decide⟩)

/-- Counterexample to claim C7: the current winner is the trump Q♥ owned by
a non-teammate, the first trump encountered in the AI's hand is 3♥ — but it
matches the winner's suit without exceeding its order, so the code does not
play it immediately; it falls into minimum tracking and the AI discards 2♠
instead of the first trump. -/
theorem first_trump_counterexample :
    exC7player.has (lead_card exC7player exC7table).suit = false
    ∧ (cur_winner exC7player exC7table).ato = true
    ∧ (cur_winner exC7player exC7table).owner ≠ exC7player.teammate
    ∧ exC7player.cards.head? = some ⟨Rank.num 3, Suit.hearts, true, some 5⟩
    ∧ (⟨Rank.num 3, Suit.hearts, true, some 5⟩ : Card).ato = true
    ∧ ai_select exC7player exC7table
        = some ⟨Rank.num 2, Suit.spades, false, some 5⟩
    ∧ (⟨Rank.num 2, Suit.spades, false, some 5⟩ : Card)
        ≠ ⟨Rank.num 3, Suit.hearts, true, some 5⟩ := by
  decide

/-- Claim C7 amended: when the AI does not hold the lead suit and the hand
is `c0 :: rest`, the played card is the first card of the hand satisfying
the break condition — a trump, with the current winner's owner not the
teammate, that either differs from the winner's suit or strictly exceeds
the winner's order — and, when no card satisfies it, the minimum-order card
tracked by `min_step` over the hand (which is a hand card of minimal
order); on ties in order the later card replaces the tracked minimum
exactly when its suit holds at least as many cards, so a suit holding
strictly more cards is preferred. -/
theorem ai_discard_spec (p : Player) (t : List Card) (c0 : Card)
    (rest : List Card) (hcards : p.cards = c0 :: rest)
    (hno : p.has (lead_card p t).suit = false) :
    ai_select p t
      = some (match p.cards.find? (break_cond p (cur_winner p t)) with
        | some c => c
        | none => p.cards.foldl (min_step p) c0)
    ∧ (∀ c, break_cond p (cur_winner p t) c = true ↔
        (c.ato = true ∧ (cur_winner p t).owner ≠ p.teammate ∧
          (c.suit ≠ (cur_winner p t).suit ∨ (cur_winner p t).order < c.order)))
    ∧ ((∀ c ∈ p.cards, (p.cards.foldl (min_step p) c0).order ≤ c.order)
        ∧ p.cards.foldl (min_step p) c0 ∈ p.cards)
    ∧ (∀ sm c, c.order = sm.order →
        ((p.get_suit sm.suit).length < (p.get_suit c.suit).length →
          min_step p sm c = c)
        ∧ ((p.get_suit c.suit).length < (p.get_suit sm.suit).length →
          min_step p sm c = sm)) := by
  refine ⟨?_, ?_, ?_, ?_⟩
  · have h1 : ai_select p t = discard_select p (cur_winner p t) := by
      simp [ai_select, hno]
    rw [h1]
    unfold discard_select
    rw [hcards]
    show some (discard_go p (cur_winner p t) (c0 :: rest) c0)
      = some (match List.find? (break_cond p (cur_winner p t)) (c0 :: rest) with
        | some c => c
        | none => List.foldl (min_step p) c0 (c0 :: rest))
    rw [discard_go_eq]
  · intro c
    by_cases hcs : c.suit = (cur_winner p t).suit <;>
      simp [break_cond, hcs, Bool.and_eq_true, decide_eq_true_eq]
    all_goals tauto
  · constructor
    · intro c hc
      exact (foldl_min_le p p.cards c0).2 c hc
    · have h := foldl_min_mem p p.cards c0
      rcases List.mem_cons.mp h with h1 | h1
      · rw [h1, hcards]; exact List.mem_cons_self _ _
      · exact h1
  · intro sm c heq
    constructor
    · intro hlt
      unfold min_step
      rw [if_pos (le_of_eq heq), if_pos heq, if_pos (le_of_lt hlt)]
    · intro hlt
      unfold min_step
      rw [if_pos (le_of_eq heq), if_pos heq, if_neg (not_le.mpr hlt)]

/-- Concrete instance of amended C7: with hand [3♥(trump), 2♠] against the
trump winner Q♥, no card fires the break condition and the discard is the
tracked minimum. -/
theorem ai_discard_spec_witness :
    ai_select exC7player exC7table
      = some (match exC7player.cards.find?
            (break_cond exC7player (cur_winner exC7player exC7table)) with
        | some c => c
        | none => exC7player.cards.foldl (min_step exC7player)
            ⟨Rank.num 3, Suit.hearts, true, some 5⟩) :=
  (ai_discard_spec exC7player exC7table ⟨Rank.num 3, Suit.hearts, true, some 5⟩
    [⟨Rank.num 2, Suit.spades, false, some 5⟩] rfl (by decide)).1

/-- Counterexample to claim C8: the placeholder built when the AI leads is
`Card(-1, HEARTS, self)` — its owner is the selecting player itself rather
than "no real owner", and its Hearts suit is distinguished by the
selection: leading with hand {A♥, 2♠}, the AI enters the lead-suit branch
for Hearts and plays A♥, its highest card, rather than treating the lead
suit as undefined. -/
theorem placeholder_counterexample :
    (placeholder_card exC8player).owner ≠ none
    ∧ (placeholder_card exC8player).owner = some exC8player.id
    ∧ (placeholder_card exC8player).suit = Suit.hearts
    ∧ ai_select exC8player []
        = some ⟨Rank.A, Suit.hearts, false, some 1⟩ := by
  decide

/-- Claim C8 amended: the placeholder is used for comparison only and is
never the returned card — for any non-empty hand of real cards (order ≥ 2)
the result is drawn from the hand — but it carries the selecting player
itself as owner (an id never equal to the teammate's) and fixes the lead
suit to Hearts. -/
theorem placeholder_spec (p : Player) (hne : p.cards ≠ [])
    (hreal : ∀ c ∈ p.cards, 2 ≤ c.order) :
    (placeholder_card p).owner = some p.id
    ∧ (placeholder_card p).suit = Suit.hearts
    ∧ ∃ c, ai_select p [] = some c ∧ c ∈ p.cards := by
  refine ⟨rfl, rfl, ai_select_total_aux p [] hne ?_⟩
  intro hhas
  simp only [Player.has, List.any_eq_true, decide_eq_true_eq] at hhas
  obtain ⟨c, hc, hcs⟩ := hhas
  refine ⟨c, get_suit_mem hc hcs, ?_⟩
  have h2 := hreal c hc
  show c.order ≠ -1
  omega

/-- Concrete instance of amended C8 with the hand {A♥, 2♠}. -/
theorem placeholder_spec_witness :
    (placeholder_card exC8player).owner = some exC8player.id
    ∧ (placeholder_card exC8player).suit = Suit.hearts
    ∧ ∃ c, ai_select exC8player [] = some c ∧ c ∈ exC8player.cards :=
  placeholder_spec exC8player (by decide) (by decide)

theorem set_ato_deck_iff (s : Suit) :
    ∀ c ∈ set_ato get_deck s, (c.ato = true ↔ c.suit = s) := by
  cases s <;> decide

/-- Claim C5: every card of a freshly built deck has its trump flag false;
the trump-setting loop run inside the first player's turn of round 1 (after
the first card is played and before any other player acts) flags exactly
the 13 deck cards sharing the played card's suit; and every later turn
(AI turns, later human turns) only moves a card from a hand to the table,
preserving the multiset of cards — hence no card's trump flag is modified
for the remainder of the hand. -/
theorem trump_flag_lifecycle :
    (∀ c ∈ get_deck, c.ato = false)
    ∧ (∀ s : Suit, ((set_ato get_deck s).filter fun c => c.ato).length = 13)
    ∧ (∀ s : Suit, ∀ c ∈ set_ato get_deck s, (c.ato = true ↔ c.suit = s))
    ∧ (∀ hand table c, ∀ x ∈ (first_turn get_deck hand table c).1,
        (x.ato = true ↔ x.suit = c.suit))
    ∧ (∀ p t q u, player_turn_ai p t = some (q, u) →
        (q.cards ++ u).Perm (p.cards ++ t))
    ∧ (∀ p table c, c ∈ p.cards →
        (((later_human_turn p table c).1.cards
            ++ (later_human_turn p table c).2).Perm (p.cards ++ table))) := by
  refine ⟨by decide, ?_, set_ato_deck_iff, ?_, ?_, ?_⟩
  · intro s
    cases s <;> decide
  · intro hand table c x hx
    exact set_ato_deck_iff c.suit x hx
  · intro p t q u h
    rcases hsel : ai_select p t with _ | c
    · rw [player_turn_ai, hsel] at h
      exact absurd h (by simp)
    · rw [player_turn_ai, hsel] at h
      have h2 : ({p with cards := p.cards.erase c}, t ++ [c]) = (q, u) := by
        simpa using h
      have hq : q = {p with cards := p.cards.erase c} :=
        (congrArg Prod.fst h2).symm
      have hu : u = t ++ [c] := (congrArg Prod.snd h2).symm
      subst hq
      subst hu
      exact erase_play_perm (ai_select_mem hsel)
  · intro p table c hc
    exact erase_play_perm hc

/-- Concrete instance of the C5 turn-preservation conjunct: an AI turn
moves one card from the hand to the table and changes nothing else. -/
theorem trump_flag_lifecycle_witness :
    ((⟨5, some 7, [⟨Rank.num 3, Suit.hearts, true, some 5⟩]⟩ : Player).cards
        ++ (exC7table ++ [(⟨Rank.num 2, Suit.spades, false, some 5⟩ : Card)])).Perm
      (exC7player.cards ++ exC7table) :=
  trump_flag_lifecycle.2.2.2.2.1 exC7player exC7table
    ⟨5, some 7, [⟨Rank.num 3, Suit.hearts, true, some 5⟩]⟩
    (exC7table ++ [(⟨Rank.num 2, Suit.spades, false, some 5⟩ : Card)]) (by decide)

end West
